import Mathlib

/-!
# Verification of `main.cpp` (OpenCV circle tracking example)

A shallow embedding of `src/main.cpp`:

* `utils::Color` and its packed / component conversions,
* `utils::slide_view` and the two loops of `draw_circles`,
* the parameters `detect_circles` hands to `cv::HoughCircles`,
* the device selection and the frame-time loop of `main`.

Conventions of the embedding.

* `size_t` is 64 bits wide and `unsigned` is 32 bits wide; arithmetic on them is
  arithmetic on `Nat` reduced `% 2^64` resp. `% 2^32`.
* `int` values are `Int`; the conversions `float -> int` are truncations.
* A finite `float` / `double` is the dyadic number `m * 2^e` (`Flt`); every
  operation is the exact operation followed by IEEE-754 round-to-nearest-even
  at 24 resp. 53 significant bits.  Exponent range limits are not modelled: all
  values met by the code below are far inside the normal range.
* An image (`cv::Mat`) is its dimensions, its pixel payload and the list of
  drawing calls applied to it, oldest first.
* The lambda of `slide_view` captures `r` and `sz` by reference. The parameter
  `sz` ends when `slide_view` returns and the temporary span bound to `r` ends
  with the statement of line 111, so in the view that `draw_circles` walks the
  captures are dead: a call of the lambda there reads dead objects, which is
  undefined behaviour (`Fault.dangling_capture`).
-/

namespace CvExample

/-! ## Constants (lines 16-17) -/

/-- Line 16: `constexpr auto MAX_TAIL_SIZE = 10;` -/
def MAX_TAIL_SIZE : Nat := 10

/-- Line 17: `constexpr auto MAX_TAIL_THICKNESS = 4;` -/
def MAX_TAIL_THICKNESS : Nat := 4

/-- Modulus of `size_t` arithmetic, `2^64`. -/
def SIZE_MOD : Nat := 2 ^ 64

/-- Modulus of `unsigned` arithmetic, `2^32`. -/
def UINT_MOD : Nat := 2 ^ 32

/-! ## Floating point values -/

/-- Finite binary floating point value `m * 2^e`. -/
structure Flt where
  m : Int
  e : Int
deriving DecidableEq, Repr

namespace Flt

/-- Exact conversion of a small integer (`uint8_t`, the constant `4`). -/
def ofInt (n : Int) : Flt := ⟨n, 0⟩

/-- Conversion `float -> int` / `double -> int`: truncation toward zero. -/
def toInt (f : Flt) : Int :=
  if 0 ≤ f.e then f.m * 2 ^ f.e.toNat else Int.tdiv f.m (2 ^ (-f.e).toNat)

/-- Number of binary digits of `n`, with `fuel` steps. -/
def bitLenAux : Nat → Nat → Nat
  | 0, _ => 0
  | fuel + 1, n => if n = 0 then 0 else bitLenAux fuel (n / 2) + 1

/-- Number of binary digits of `n` (`0` for `0`). -/
def bitLen (n : Nat) : Nat := bitLenAux n n

/-- The fraction `num / den / 2^e` as a pair numerator, denominator. -/
def scaled (num den : Nat) (e : Int) : Nat × Nat :=
  if 0 ≤ e then (num, den * 2 ^ e.toNat) else (num * 2 ^ (-e).toNat, den)

/-- Round the non-negative rational `num / den` to `p` significant bits,
nearest, ties to even. -/
def roundNearestEven (p num den : Nat) : Flt :=
  let e0 : Int := (bitLen num : Int) - (bitLen den : Int) - (p : Int)
  let s0 := scaled num den e0
  let e : Int := if s0.1 / s0.2 < 2 ^ p then e0 else e0 + 1
  let s := scaled num den e
  let q := s.1 / s.2
  let r := s.1 % s.2
  let q := if 2 * r < s.2 then q
           else if 2 * r = s.2 then (if q % 2 = 0 then q else q + 1)
           else q + 1
  ⟨(q : Int), e⟩

/-- Conversion `size_t -> float` (`static_cast<float>`). -/
def ofNat32 (n : Nat) : Flt := roundNearestEven 24 n 1

/-- Division of two positive `float`s, rounded to `float`. -/
def div32 (a b : Flt) : Flt :=
  let q := roundNearestEven 24 a.m.toNat b.m.toNat
  ⟨q.m, q.e + a.e - b.e⟩

/-- Integer square root, digit by digit from bit `b - 1` down. -/
def isqrtAux (n : Nat) : Nat → Nat → Nat
  | 0, r => r
  | b + 1, r => isqrtAux n b (if (r + 2 ^ b) * (r + 2 ^ b) ≤ n then r + 2 ^ b else r)

/-- Integer square root `⌊√n⌋`. -/
def isqrt (n : Nat) : Nat := isqrtAux n (bitLen n) 0

/-- Square root of a positive `float`, rounded to `float` (`std::sqrt(float)`).
The mantissa is scaled by an even power of two so that the integer root has
more than 25 bits; the sticky bit records inexactness. -/
def sqrt32 (a : Flt) : Flt :=
  let s : Int := 60 + a.e % 2
  let n : Nat := a.m.toNat * 2 ^ s.toNat
  let t := isqrt n
  let sticky : Nat := if t * t = n then 0 else 1
  let q := roundNearestEven 24 (2 * t + sticky) 2
  ⟨q.m, q.e + (a.e - s) / 2⟩

/-- Product of two positive `double`s, rounded to `double`. -/
def mul64 (a b : Flt) : Flt :=
  let q := roundNearestEven 53 (a.m.toNat * b.m.toNat) 1
  ⟨q.m, q.e + a.e + b.e⟩

end Flt

/-- Lines 115-116: `static_cast<int>(std::sqrt(MAX_TAIL_THICKNESS /
static_cast<float>(i + 1)) * 2.5)`.  `i + 1` is computed in `size_t`; when it
wraps to `0` the quotient is infinite and the conversion to `int` is
undefined (`none`). -/
def thickness (i : Nat) : Option Int :=
  let d := (i + 1) % SIZE_MOD
  if d = 0 then none
  else some (Flt.toInt (Flt.mul64
    (Flt.sqrt32 (Flt.div32 (Flt.ofInt MAX_TAIL_THICKNESS) (Flt.ofNat32 d))) ⟨5, -1⟩))

/-! ## Geometry, colours and images -/

/-- Integer pixel point, `cv::Point`. -/
structure Point where
  x : Int
  y : Int
deriving DecidableEq, Repr

/-- Three `float` components, `cv::Vec3f`; a circle candidate is
`(x, y, radius)`. -/
structure Vec3f where
  v0 : Flt
  v1 : Flt
  v2 : Flt
deriving DecidableEq, Repr

namespace utils

/-- Lines 20-23: three `uint8_t` channels. -/
structure Color where
  r : Nat
  g : Nat
  b : Nat
deriving DecidableEq, Repr

namespace Color

/-- Line 25: `Color(uint8_t r, uint8_t g, uint8_t b)`; the arguments arrive as
`uint8_t`. -/
def ofRGB (r g b : Nat) : Color := ⟨r % 256, g % 256, b % 256⟩

/-- Lines 26-30: `Color(uint32_t rgb)`; every channel is stored into a
`uint8_t`. -/
def ofPacked (rgb : Nat) : Color :=
  let rgb := rgb % 2 ^ 32
  ⟨((rgb >>> 16) &&& 0xff) % 256, ((rgb >>> 8) &&& 0xff) % 256, (rgb &&& 0xff) % 256⟩

/-- Line 36: `operator uint32_t()`, `(r << 16) | (g << 8) | b`. -/
def toUInt32 (c : Color) : Nat := ((c.r <<< 16) ||| (c.g <<< 8) ||| c.b) % 2 ^ 32

/-- Line 38: `toBGR()`, `cv::Vec3f(b, g, r)`. -/
def toBGR (c : Color) : Vec3f := ⟨Flt.ofInt c.b, Flt.ofInt c.g, Flt.ofInt c.r⟩

end Color

/-- Line 41: `Colors::Red`. -/
def Colors.Red : Color := Color.ofPacked 0xff0000

end utils

/-- One drawing call on an image. -/
inductive DrawCmd where
  | circle (center : Point) (radius : Int) (color : Vec3f) (thickness : Int)
  | line (pt1 pt2 : Point) (color : Vec3f) (thickness : Int)
deriving DecidableEq, Repr

/-- Image `cv::Mat`: dimensions, pixel payload, and the drawing calls applied so
far (oldest first). -/
structure Mat where
  rows : Int
  cols : Int
  data : List Nat
  drawn : List DrawCmd
deriving DecidableEq, Repr

/-- Ways a run leaves defined behaviour, is stopped by a library assertion, or
exhausts its step budget. -/
inductive Fault where
  | out_of_range
  | not_finite
  | out_of_fuel
  | dangling_capture
  | assertion_failed
deriving DecidableEq, Repr

/-- OpenCV `MAX_THICKNESS` (imgproc, drawing.cpp): the largest stroke thickness
the drawing functions accept. -/
def MAX_THICKNESS : Int := 32767

/-- Library call `cv::circle(img, center, radius, color, thickness)`, here always
with thickness 2. The library's check of the radius (`radius >= 0`) is not
modelled. -/
def cv_circle (img : Mat) (center : Point) (radius : Int) (color : Vec3f) (th : Int) : Mat :=
  { img with drawn := img.drawn ++ [DrawCmd.circle center radius color th] }

/-- Library call `cv::line(img, pt1, pt2, color, thickness)`. OpenCV asserts
`0 < thickness && thickness <= MAX_THICKNESS` and throws when it fails. -/
def cv_line (img : Mat) (p1 p2 : Point) (color : Vec3f) (th : Int) : Except Fault Mat :=
  if 0 < th ∧ th ≤ MAX_THICKNESS then
    Except.ok { img with drawn := img.drawn ++ [DrawCmd.line p1 p2 color th] }
  else Except.error Fault.assertion_failed

/-! ## `utils::slide_view` (lines 60-66) -/

namespace utils

/-- The view `iota(0u, distance(r) - sz + 1) | transform(lambda)`: `bound` is
the bound of the iota, a `size_t`, held by value; `base` and `sz` are the
objects the lambda captured by reference (`[&, i = 0u]`), and `captures_alive`
tells whether these objects are still alive. -/
structure SlideView (α : Type) where
  base : List α
  sz : Nat
  bound : Nat
  captures_alive : Bool

/-- Iterator over a `SlideView`: the `unsigned` value of the iota iterator and
the `unsigned` counter `i` held by the lambda. -/
structure SlideIter where
  value : Nat
  i : Nat
deriving DecidableEq, Repr

/-- Lines 61-66, the view as the caller receives it. `distance(r) - sz + 1` is
evaluated in `size_t` while `r` and `sz` are alive. The lambda keeps references
to the by-value parameter `sz`, which ends with the return, and to `r`, which
at line 111 is bound to a temporary `std::span` that ends with that statement:
when the caller walks the view the captures are dead. -/
def slide_view {α : Type} (r : List α) (sz : Nat) : SlideView α :=
  { base := r
    sz := sz % SIZE_MOD
    bound := (((r.length : Int) - ((sz % SIZE_MOD : Nat) : Int) + 1) % (SIZE_MOD : Int)).toNat
    captures_alive := false }

namespace SlideView

/-- Start of the walk, `begin()`: iota at `0u`, lambda counter at `0u`. -/
def start : SlideIter := ⟨0, 0⟩

/-- Sentinel test `it == end()`: the `unsigned` iota value against the `size_t`
bound. -/
def atEnd {α : Type} (s : SlideView α) (it : SlideIter) : Bool := decide (it.value = s.bound)

/-- The same view with the captured objects alive, as they are inside
`slide_view` before it returns; it serves to state what the walk computes
apart from the lifetime of the captures. -/
def with_live_captures {α : Type} (s : SlideView α) : SlideView α :=
  { s with captures_alive := true }

/-- Dereference `*it`: the lambda is called, reads its captures `r` and `sz`,
returns `std::span(&*begin(r) + i, sz)` and post-increments `i`. The call has
no defined result when the window does not lie inside `r` (`out_of_range`), and
when the window lies inside `r` but the captures read are dead
(`dangling_capture`). -/
def deref {α : Type} (s : SlideView α) (it : SlideIter) :
    Except Fault (List α) × SlideIter :=
  (if it.i + s.sz ≤ s.base.length then
     (if s.captures_alive then Except.ok ((s.base.drop it.i).take s.sz)
      else Except.error Fault.dangling_capture)
   else Except.error Fault.out_of_range,
   { it with i := (it.i + 1) % UINT_MOD })

/-- Increment `++it` of the iota iterator, an `unsigned`. -/
def next (it : SlideIter) : SlideIter := { it with value := (it.value + 1) % UINT_MOD }

end SlideView
end utils

/-! ## `detect_circles` (lines 78-85) -/

/-- OpenCV `cv::Size_<int>` (opencv2/core/types.hpp): the data members are
declared `width` first, `height` second. -/
structure Size where
  width : Int
  height : Int
deriving DecidableEq, Repr

/-- A structured binding `auto [a, b] = size` binds the data members in
declaration order. -/
def Size.bindings (s : Size) : Int × Int := (s.width, s.height)

/-- OpenCV `cv::Mat::size()`: `Size(cols, rows)`. -/
def Mat.size (img : Mat) : Size := ⟨img.cols, img.rows⟩

/-- Detection methods of `cv::HoughCircles`. -/
inductive HoughModes where
  | HOUGH_GRADIENT
  | HOUGH_GRADIENT_ALT
deriving DecidableEq, Repr

/-- Arguments of one `cv::HoughCircles` call after the image and the output
vector. -/
structure HoughArgs where
  method : HoughModes
  dp : Flt
  minDist : Flt
  param1 : Flt
  param2 : Flt
  minRadius : Int
  maxRadius : Int
deriving DecidableEq, Repr

/-- Lines 82-83: the arguments handed to `cv::HoughCircles`. The literal `0.9`
is the `double` nearest to 9/10. -/
def detect_circles_args (img : Mat) : HoughArgs :=
  let hw := img.size.bindings
  let h := hw.1
  { method := HoughModes.HOUGH_GRADIENT
    dp := Flt.ofInt 2
    minDist := Flt.ofInt (h * 2)
    param1 := Flt.ofInt 300
    param2 := Flt.roundNearestEven 53 9 10
    minRadius := 5
    maxRadius := 10 }

/-- Lines 78-85, with the library detector `cv::HoughCircles` as a parameter. -/
def detect_circles (HoughCircles : Mat → HoughArgs → List Vec3f) (img : Mat) : List Vec3f :=
  HoughCircles img (detect_circles_args img)

/-! ## `draw_circles` (lines 87-121) -/

/-- Lines 93-96: `cv::Point(x, y)` with `x = c[0]`, `y = c[1]`; the `float`
coordinates are converted to `int`. -/
def center_of (c : Vec3f) : Point := ⟨c.v0.toInt, c.v1.toInt⟩

/-- Lines 93-105: the body of the loop over `circles`. -/
def circle_step (red : Vec3f) (st : Mat × Option (List Point)) (c : Vec3f) :
    Mat × Option (List Point) :=
  let center := center_of c
  let img := cv_circle st.1 center c.v2.toInt red 2
  match st.2 with
  | none => (img, none)
  | some hist =>
    let hist := center :: hist
    (img, some (if hist.length > MAX_TAIL_SIZE then hist.dropLast else hist))

/-- Lines 92-106: the loop over `circles`. -/
def fold_circles (red : Vec3f) (img : Mat) (circles : List Vec3f)
    (last_state : Option (List Point)) : Mat × Option (List Point) :=
  circles.foldl (circle_step red) (img, last_state)

/-- Lines 114-119: the loop over the slide view; `fuel` bounds the number of
sentinel tests. -/
def trail_loop (red : Vec3f) (slide : utils.SlideView Point) :
    Nat → utils.SlideIter → Nat → Mat → Except Fault Mat
  | 0, _, _, _ => Except.error Fault.out_of_fuel
  | fuel + 1, it, i, img =>
    if slide.atEnd it then Except.ok img
    else
      let w := slide.deref it
      match w.1 with
      | Except.error e => Except.error e
      | Except.ok ps =>
        match thickness i with
        | none => Except.error Fault.not_finite
        | some th =>
          match ps[0]?, ps[1]? with
          | some p0, some p1 =>
            match cv_line img p0 p1 red th with
            | Except.error e => Except.error e
            | Except.ok img =>
              trail_loop red slide fuel (utils.SlideView.next w.2) ((i + 1) % SIZE_MOD) img
          | _, _ => Except.error Fault.out_of_range

/-- Lines 87-121. -/
def draw_circles (fuel : Nat) (img : Mat) (circles : List Vec3f)
    (last_state : Option (List Point)) : Except Fault Mat :=
  let red := utils.Colors.Red.toBGR
  let st := fold_circles red img circles last_state
  match st.2 with
  | none => Except.ok st.1
  | some hist => trail_loop red (utils.slide_view hist 2) fuel utils.SlideView.start 0 st.1

/-- The call protocol of `draw_circles` seen from a caller that owns `history`
and passes it to one call per frame (`main` itself makes no such call).
`last_state` is a by-value parameter (line 89): the callee works on its own
copy, which ends with the call, and the function returns `void`; the caller's
`history` is the same after the call as before, and the image, passed by
reference, carries the drawing of every call. -/
def update_calls (fuel : Nat) (img : Mat) (history : List Point) :
    List (List Vec3f) → Except Fault (Mat × List Point)
  | [] => Except.ok (img, history)
  | circles :: rest =>
    match draw_circles fuel img circles (some history) with
    | Except.ok img => update_calls fuel img history rest
    | Except.error e => Except.error e

/-! ## `main`: device selection (lines 160-174) -/

/-- Error codes of `std::from_chars`; `success` is `std::errc()`. -/
inductive errc where
  | success
  | invalid_argument
  | result_out_of_range
deriving DecidableEq, Repr

/-- Result of `std::from_chars`: `ptr` as an offset into the input. -/
structure from_chars_result where
  ptr : Nat
  ec : errc
deriving DecidableEq, Repr

/-- Value of a run of decimal digits. -/
def digits_value (ds : List Char) : Nat :=
  ds.foldl (fun acc c => 10 * acc + (c.toNat - 48)) 0

/-- Standard library `std::from_chars(first, last, int& value)` in base 10: an
optional minus sign and the longest run of digits are consumed, nothing is
skipped before them; without a digit the result is `invalid_argument`, with a
value outside `int` it is `result_out_of_range`, and in both cases `value` is
left as it was. Returns the result and the new `value`. -/
def from_chars (s : List Char) (value : Int) : from_chars_result × Int :=
  let neg : Bool := decide (s.head? = some '-')
  let body := if neg then s.tail else s
  let ds := body.takeWhile Char.isDigit
  if ds.isEmpty then (⟨0, errc.invalid_argument⟩, value)
  else
    let v : Int := if neg then -(digits_value ds : Int) else (digits_value ds : Int)
    let p := (if neg then 1 else 0) + ds.length
    if -(2 ^ 31) ≤ v ∧ v ≤ 2 ^ 31 - 1 then (⟨p, errc.success⟩, v)
    else (⟨p, errc.result_out_of_range⟩, value)

/-- State of a `cv::VideoCapture`: default constructed, or opened by index or
by file name. -/
inductive VideoCapture where
  | unopened
  | byIndex (idx : Int)
  | byFilename (name : String)
deriving DecidableEq, Repr

/-- Log lines of the device selection. -/
inductive LogLine where
  | error_cannot_parse (device : String)
  | info_use_index (idx : Int)
  | info_use_filename (device : String)
deriving DecidableEq, Repr

/-- Outcome of lines 160-174: the log, the capture object, and the exit status
if `main` returned there. -/
structure Selection where
  log : List LogLine
  cap : VideoCapture
  returned : Option Int
deriving DecidableEq, Repr

/-- Lines 160-174. `no_index_flag` is the parsed `--no-index` flag and `idx0` the
indeterminate initial content of `int idx`. -/
def select_device (no_index_flag : Bool) (device : String) (idx0 : Int) : Selection :=
  if !no_index_flag then
    let r := from_chars device.toList idx0
    let idx := r.2
    if r.1.ec ≠ errc.success then
      { log := [LogLine.error_cannot_parse device], cap := VideoCapture.unopened,
        returned := some 1 }
    else
      { log := [LogLine.info_use_index idx], cap := VideoCapture.byIndex idx, returned := none }
  else
    { log := [LogLine.info_use_filename device], cap := VideoCapture.byFilename device,
      returned := none }

/-! ## `main`: the frame loop (lines 191-226) -/

/-- Line 191: `constexpr auto average_interval = 100;` -/
def average_interval : Nat := 100

/-- Line 213: `diff / frame_count`, a duration with a signed 64-bit tick count
divided by a `size_t`. The quotient is formed in the common type, unsigned
64-bit, and stored back into the signed tick count. -/
def duration_div (diff : Int) (n : Nat) : Int :=
  let q : Nat := (diff % (SIZE_MOD : Int)).toNat / n
  if q < 2 ^ 63 then (q : Int) else (q : Int) - (SIZE_MOD : Int)

/-- Variables of the frame loop (lines 195-198) and the reports logged so far:
each report is `average_frametime` in clock ticks with `total_frame_count`. -/
structure Timing where
  average_frametime : Int
  frame_count : Nat
  total_frame_count : Nat
  start_time : Int
  reports : List (Int × Nat)
deriving DecidableEq, Repr

/-- Lines 195-198, `start_time` being the clock reading taken there. -/
def Timing.init (start_time : Int) : Timing :=
  { average_frametime := 0, frame_count := 0, total_frame_count := 0,
    start_time := start_time, reports := [] }

/-- Lines 206-222: one non-empty frame, `now` being the clock reading of
line 206. -/
def on_frame (s : Timing) (now : Int) : Timing :=
  let frame_count := (s.frame_count + 1) % SIZE_MOD
  let total_frame_count := (s.total_frame_count + 1) % SIZE_MOD
  if frame_count % average_interval = 0 then
    let diff := now - s.start_time
    let average_frametime := duration_div diff frame_count
    { average_frametime := average_frametime
      frame_count := 0
      total_frame_count := total_frame_count
      start_time := now
      reports := s.reports ++ [(average_frametime, total_frame_count)] }
  else
    { s with frame_count := frame_count, total_frame_count := total_frame_count }

/-- Lines 199-226: the loop. Each list element is one iteration with the
capture open: `none` is an empty frame (the loop breaks), `some now` a
non-empty frame with its clock reading; the list ends when the capture is no
longer open. -/
def main_loop (s : Timing) : List (Option Int) → Timing
  | [] => s
  | none :: _ => s
  | some now :: rest => main_loop (on_frame s now) rest

/-- The loop run on a stream of non-empty frames with clock readings `ts`,
started at clock reading `t0`. -/
def run_frames (t0 : Int) (ts : List Int) : Timing :=
  main_loop (Timing.init t0) (ts.map some)

/-! ## Windows of the frame-time estimator, in the words of the spec -/

/-- Start time of window `j` (windows of 100 frames, counted from 0): the
clock reading taken before the loop for the first window, and otherwise the
clock reading of the frame that ended the previous window. -/
def window_start (t0 : Int) (ts : List Int) (j : Nat) : Int :=
  if j = 0 then t0 else ts.getD (100 * j - 1) 0

/-- Clock reading of the 100th frame of window `j`. -/
def window_last (ts : List Int) (j : Nat) : Int := ts.getD (100 * j + 99) 0

/-- Clock reading of the 1st frame of window `j`. -/
def window_first (ts : List Int) (j : Nat) : Int := ts.getD (100 * j) 0

/-- The report closing window `j`: the average in ticks with the total frame
count. -/
def window_report (t0 : Int) (ts : List Int) (j : Nat) : Int × Nat :=
  (duration_div (window_last ts j - window_start t0 ts j) 100, (100 * (j + 1)) % SIZE_MOD)

/-! ## Device strings, in the words of the spec -/

/-- The string begins with a decimal integer: an optional minus sign followed by
a decimal digit. -/
def starts_with_integer (s : List Char) : Bool :=
  match s with
  | [] => false
  | c :: rest =>
    if c = '-' then
      (match rest with
       | [] => false
       | d :: _ => d.isDigit)
    else c.isDigit

/-- The string that is wholly a decimal integer: a minus sign if `neg`, then
the decimal digits `ds`, most significant first. -/
def integer_string (neg : Bool) (ds : List Nat) : String :=
  String.mk ((if neg then ['-'] else []) ++ ds.map Nat.digitChar)

/-- The integer written by `integer_string neg ds`. -/
def integer_value (neg : Bool) (ds : List Nat) : Int :=
  if neg then -((Nat.ofDigits 10 ds.reverse : Nat) : Int)
  else ((Nat.ofDigits 10 ds.reverse : Nat) : Int)

/-! ## Sample data -/

/-- A 640 x 480 image with nothing drawn on it. -/
def sample_img : Mat := ⟨480, 640, [], []⟩

/-- A candidate at the integer position `(x, y)` with radius 7. -/
def candidate_at (x y : Int) : Vec3f := ⟨Flt.ofInt x, Flt.ofInt y, Flt.ofInt 7⟩

/-- Three candidates, at `(1, 2)`, `(3, 4)` and `(5.5, 6)`. -/
def sample_circles : List Vec3f :=
  [candidate_at 1 2, candidate_at 3 4, ⟨⟨11, -1⟩, ⟨6, 0⟩, ⟨7, 0⟩⟩]

/-- Two candidates, at `(1, 2)` and `(3, 4)`. -/
def two_circles : List Vec3f := [candidate_at 1 2, candidate_at 3 4]

/-- Twelve frames with one candidate each, at `(10, 10)`, `(11, 10)`, ..,
`(21, 10)`. -/
def twelve_frames : List (List Vec3f) :=
  (List.range 12).map (fun k => [candidate_at (10 + (k : Int)) 10])

/-- Clock readings of frames arriving every 1000 ticks: `1000, 2000, ..`. -/
def steady_clock (n : Nat) : List Int :=
  (List.range n).map (fun k => 1000 * ((k : Int) + 1))

/-! # Theorems -/

set_option maxRecDepth 100000

/-! ## Bit-level lemmas for `utils::Color` -/

theorem and_255_eq_mod (x : Nat) : x &&& 0xff = x % 256 := by
  have h := Nat.and_pow_two_sub_one_eq_mod x 8
  norm_num at h
  exact h

theorem pack_or_eq_add (r g b : Nat) (hg : g < 256) (hb : b < 256) :
    (r <<< 16) ||| (g <<< 8) ||| b = r * 65536 + g * 256 + b := by
  have h1 : (r <<< 16) ||| (g <<< 8) = 2 ^ 16 * r + g <<< 8 := by
    rw [Nat.shiftLeft_eq r 16, Nat.mul_comm r (2 ^ 16)]
    refine (Nat.mul_add_lt_is_or ?_ r).symm
    rw [Nat.shiftLeft_eq]
    omega
  have h2 : 2 ^ 16 * r + g <<< 8 = 2 ^ 8 * (256 * r + g) := by
    rw [Nat.shiftLeft_eq]
    omega
  rw [h1, h2, ← Nat.mul_add_lt_is_or (by omega : b < 2 ^ 8)]
  omega

theorem ofPacked_channels (p : Nat) (hp : p < 2 ^ 32) :
    utils.Color.ofPacked p = ⟨p / 65536 % 256, p / 256 % 256, p % 256⟩ := by
  unfold utils.Color.ofPacked
  simp only [and_255_eq_mod, Nat.shiftRight_eq_div_pow, Nat.mod_mod]
  rw [Nat.mod_eq_of_lt hp]

/-- C8. Packed and component forms of `utils::Color` are inverse to each other
on the 8-bit range: for channels `r, g, b < 256` the colour `Color(r, g, b)`
holds exactly these channels, packs to `r * 65536 + g * 256 + b`, and unpacking
that integer gives the same colour back; for a packed value `p < 2^24`, packing
`Color(p)` gives `p` back. -/
theorem color_pack_unpack_lossless :
    (∀ r g b : Nat, r < 256 → g < 256 → b < 256 →
      utils.Color.ofRGB r g b = ⟨r, g, b⟩ ∧
      (utils.Color.ofRGB r g b).toUInt32 = r * 65536 + g * 256 + b ∧
      utils.Color.ofPacked (utils.Color.ofRGB r g b).toUInt32 = utils.Color.ofRGB r g b) ∧
    (∀ p : Nat, p < 2 ^ 24 → (utils.Color.ofPacked p).toUInt32 = p) := by
  constructor
  · intro r g b hr hg hb
    have h0 : utils.Color.ofRGB r g b = ⟨r, g, b⟩ := by
      simp [utils.Color.ofRGB, Nat.mod_eq_of_lt hr, Nat.mod_eq_of_lt hg, Nat.mod_eq_of_lt hb]
    have h1 : (utils.Color.ofRGB r g b).toUInt32 = r * 65536 + g * 256 + b := by
      rw [h0]
      unfold utils.Color.toUInt32
      rw [pack_or_eq_add r g b hg hb]
      omega
    refine ⟨h0, h1, ?_⟩
    rw [h1, ofPacked_channels _ (by omega), h0]
    congr 1 <;> omega
  · intro p hp
    rw [ofPacked_channels p (by omega)]
    unfold utils.Color.toUInt32
    simp only
    rw [pack_or_eq_add _ _ _ (Nat.mod_lt _ (by norm_num)) (Nat.mod_lt _ (by norm_num))]
    omega

/-- Instance of the C8 statement at amber `(255, 191, 0)` and
`0xffbf00`. -/
theorem color_pack_unpack_lossless_witness :
    (utils.Color.ofRGB 255 191 0 = ⟨255, 191, 0⟩ ∧
      (utils.Color.ofRGB 255 191 0).toUInt32 = 255 * 65536 + 191 * 256 + 0 ∧
      utils.Color.ofPacked (utils.Color.ofRGB 255 191 0).toUInt32 = utils.Color.ofRGB 255 191 0) ∧
    (utils.Color.ofPacked 0xffbf00).toUInt32 = 0xffbf00 :=
  ⟨color_pack_unpack_lossless.1 255 191 0 (by decide) (by decide) (by decide),
   color_pack_unpack_lossless.2 0xffbf00 (by decide)⟩

/-! ## The history fold of `draw_circles` -/

/-- One insertion into a history within the bound: insert at the front, keep
the first `MAX_TAIL_SIZE` points. -/
theorem insert_evict_eq_take (p : Point) (h : List Point) (hlen : h.length ≤ MAX_TAIL_SIZE) :
    (if (p :: h).length > MAX_TAIL_SIZE then (p :: h).dropLast else p :: h)
      = (p :: h).take MAX_TAIL_SIZE := by
  unfold MAX_TAIL_SIZE at *
  split
  · rename_i hgt
    rw [List.dropLast_eq_take]
    simp only [List.length_cons] at hgt ⊢
    have : h.length = 10 := by omega
    rw [this]
  · rename_i hle
    rw [List.take_of_length_le (by omega)]

theorem take_append_take {α : Type} (n : Nat) (a b : List α) :
    (a ++ b.take n).take n = (a ++ b).take n := by
  rw [List.take_append_eq_append_take, List.take_append_eq_append_take, List.take_take]
  congr 2
  omega

theorem fold_circles_cons (red : Vec3f) (img : Mat) (c : Vec3f) (cs : List Vec3f)
    (st : Option (List Point)) :
    fold_circles red img (c :: cs) st
      = fold_circles red (circle_step red (img, st) c).1 cs (circle_step red (img, st) c).2 := by
  simp [fold_circles]

theorem fold_circles_some (red : Vec3f) (cs : List Vec3f) :
    ∀ (img : Mat) (h : List Point), h.length ≤ MAX_TAIL_SIZE →
      (fold_circles red img cs (some h)).2
        = some (((cs.map center_of).reverse ++ h).take MAX_TAIL_SIZE) := by
  induction cs with
  | nil =>
    intro img h hlen
    simp [fold_circles, List.take_of_length_le hlen]
  | cons c cs ih =>
    intro img h hlen
    rw [fold_circles_cons]
    have hstep : (circle_step red (img, some h) c).2
        = some ((center_of c :: h).take MAX_TAIL_SIZE) := by
      simp only [circle_step]
      rw [insert_evict_eq_take _ _ hlen]
    rw [hstep, ih _ _ (by simp [List.length_take])]
    rw [take_append_take]
    simp

theorem fold_circles_none (red : Vec3f) (cs : List Vec3f) :
    ∀ (img : Mat), (fold_circles red img cs none).2 = none := by
  induction cs with
  | nil => intro img; rfl
  | cons c cs ih =>
    intro img
    rw [fold_circles_cons]
    exact ih _

/-- C1. For a supplied history `h` of length at most 10 and candidates
`c1 .. cm`, the history held after the loop over the candidates (the one the
trail is rendered from) is the first 10 elements of
`[center(cm), .., center(c1)] ++ h`; its length is `min (len h + m) 10`, and
when there is a candidate its element 0 is the center of the last one. -/
theorem fold_history_bounded (red : Vec3f) (img : Mat) (circles : List Vec3f)
    (h : List Point) (hlen : h.length ≤ 10) :
    ∃ hist : List Point,
      (fold_circles red img circles (some h)).2 = some hist ∧
      hist = (((circles.map center_of).reverse ++ h).take 10) ∧
      hist.length = min (h.length + circles.length) 10 ∧
      (∀ c, circles.getLast? = some c → hist[0]? = some (center_of c)) := by
  refine ⟨_, fold_circles_some red circles img h hlen, rfl, ?_, ?_⟩
  · simp [MAX_TAIL_SIZE, List.length_take]
    omega
  · intro c hc
    obtain ⟨init, rfl⟩ : ∃ init, circles = init ++ [c] := by
      refine ⟨circles.dropLast, ?_⟩
      have hne : circles ≠ [] := by
        intro hnil
        simp [hnil] at hc
      have := List.dropLast_append_getLast hne
      rw [List.getLast?_eq_getLast _ hne] at hc
      simp only [Option.some.injEq] at hc
      rw [hc] at this
      exact this.symm
    simp [MAX_TAIL_SIZE]

/-- Instance of the C1 statement: three candidates folded into a history
of nine points. -/
theorem fold_history_bounded_witness :
    ∃ hist : List Point,
      (fold_circles utils.Colors.Red.toBGR sample_img sample_circles
        (some (List.replicate 9 ⟨0, 0⟩))).2 = some hist ∧
      hist = (((sample_circles.map center_of).reverse
        ++ List.replicate 9 (⟨0, 0⟩ : Point)).take 10) ∧
      hist.length = min ((List.replicate 9 (⟨0, 0⟩ : Point)).length + sample_circles.length) 10 ∧
      (∀ c, sample_circles.getLast? = some c → hist[0]? = some (center_of c)) :=
  fold_history_bounded utils.Colors.Red.toBGR sample_img sample_circles
    (List.replicate 9 ⟨0, 0⟩) (by decide)

/-! ## The caller's history across calls -/

/-- The caller's history is never written by `draw_circles`. -/
theorem update_calls_history (fuel : Nat) (history : List Point) (frames : List (List Vec3f)) :
    ∀ (img : Mat) (r : Mat × List Point),
      update_calls fuel img history frames = Except.ok r → r.2 = history := by
  induction frames with
  | nil =>
    intro img r h
    simp only [update_calls, Except.ok.injEq] at h
    rw [← h]
  | cons cs rest ih =>
    intro img r h
    simp only [update_calls] at h
    split at h
    · exact ih _ _ h
    · simp at h

/-- C2, the code at the failing input. Twelve calls, one candidate each at
`(10,10) .. (21,10)`, all given the caller's history, which starts empty: every
call completes and the caller's history is still empty afterwards. -/
theorem twelve_frames_history_stays_empty :
    update_calls 1 sample_img [] twelve_frames
      = Except.ok
          ({ sample_img with
              drawn := (List.range 12).map (fun k =>
                DrawCmd.circle ⟨10 + (k : Int), 10⟩ 7 utils.Colors.Red.toBGR 2) }, []) := by
  rfl

/-! ## The pair walk of `draw_circles` -/

theorem slide_view_bound_empty : (utils.slide_view ([] : List Point) 2).bound = 2 ^ 64 - 1 := by
  decide

/-- C3, the code at the failing input. With tracking enabled, an empty history
and no candidates, the iota bound of `slide_view` is `0 - 2 + 1` in `size_t`,
that is `2^64 - 1`, not `0`: the walk does yield a window, at offset 0 of an
empty vector, and the call leaves defined behaviour on it instead of
completing with no segment drawn. -/
theorem empty_history_walk_reads_out_of_range (fuel : Nat) (img : Mat) :
    (utils.slide_view ([] : List Point) 2).bound = 2 ^ 64 - 1 ∧
    utils.SlideView.atEnd (utils.slide_view ([] : List Point) 2) utils.SlideView.start = false ∧
    draw_circles (fuel + 1) img [] (some []) = Except.error Fault.out_of_range := by
  refine ⟨by decide, by decide, ?_⟩
  simp only [draw_circles, fold_circles, List.foldl_nil, trail_loop]
  rfl

theorem slide_view_bound_of_pos (hist : List Point) (h1 : 1 ≤ hist.length)
    (h2 : hist.length ≤ 2 ^ 64) : (utils.slide_view hist 2).bound = hist.length - 1 := by
  simp only [utils.slide_view, SIZE_MOD]
  norm_num
  omega

theorem no_history_draws_no_segment (fuel : Nat) (img : Mat) (circles : List Vec3f) :
    draw_circles fuel img circles none
      = Except.ok (fold_circles utils.Colors.Red.toBGR img circles none).1 := by
  simp only [draw_circles, fold_circles_none]

theorem one_point_history_draws_no_segment (fuel : Nat) (img : Mat) (circles : List Vec3f)
    (last_state hist : List Point)
    (hfold : (fold_circles utils.Colors.Red.toBGR img circles (some last_state)).2 = some hist)
    (h1 : hist.length = 1) :
    draw_circles (fuel + 1) img circles (some last_state)
      = Except.ok (fold_circles utils.Colors.Red.toBGR img circles (some last_state)).1 := by
  have hb := slide_view_bound_of_pos hist (by omega) (by omega)
  simp only [draw_circles, hfold]
  rw [trail_loop]
  simp [utils.SlideView.atEnd, utils.SlideView.start, hb, h1]

/-- Every call with tracking enabled whose history after the loop over the
candidates has at least two points calls the lambda of `slide_view` with dead
captures. -/
theorem walk_reads_dead_captures (fuel : Nat) (img : Mat) (circles : List Vec3f)
    (last_state hist : List Point)
    (hfold : (fold_circles utils.Colors.Red.toBGR img circles (some last_state)).2 = some hist)
    (h2 : 2 ≤ hist.length) (hn : hist.length ≤ 2 ^ 64) :
    draw_circles (fuel + 1) img circles (some last_state)
      = Except.error Fault.dangling_capture := by
  have hb := slide_view_bound_of_pos hist (by omega) hn
  have hend : utils.SlideView.atEnd (utils.slide_view hist 2) utils.SlideView.start = false := by
    simp only [utils.SlideView.atEnd, utils.SlideView.start, hb]
    simp
    omega
  have hder : (utils.SlideView.deref (utils.slide_view hist 2) utils.SlideView.start).1
      = Except.error Fault.dangling_capture := by
    have hsz : (utils.slide_view hist 2).sz = 2 := by simp [utils.slide_view, SIZE_MOD]
    have hbase : (utils.slide_view hist 2).base = hist := rfl
    have hal : (utils.slide_view hist 2).captures_alive = false := rfl
    simp only [utils.SlideView.deref, hsz, hbase, hal, utils.SlideView.start]
    rw [if_pos (by omega)]
    simp
  simp only [draw_circles, hfold]
  rw [trail_loop]
  simp only [hend, Bool.false_eq_true, if_false, hder]

/-- C4, the code at the failing input. With tracking enabled, an empty supplied
history and two candidates at `(1, 2)` and `(3, 4)`, the history after the loop
over the candidates is `[(3, 4), (1, 2)]`, so the claim has one segment drawn,
joining `(3, 4)` and `(1, 2)`. The walk is not at its end, and its first window
is built by the lambda of `slide_view` from captures that are dead by then: the
call leaves defined behaviour there instead of drawing the segment. -/
theorem two_point_history_walk_reads_dead_captures (fuel : Nat) (img : Mat) :
    (fold_circles utils.Colors.Red.toBGR img two_circles (some [])).2
      = some [⟨3, 4⟩, ⟨1, 2⟩] ∧
    (utils.slide_view ([⟨3, 4⟩, ⟨1, 2⟩] : List Point) 2).captures_alive = false ∧
    utils.SlideView.atEnd (utils.slide_view ([⟨3, 4⟩, ⟨1, 2⟩] : List Point) 2)
      utils.SlideView.start = false ∧
    draw_circles (fuel + 1) img two_circles (some []) = Except.error Fault.dangling_capture := by
  have hfold : (fold_circles utils.Colors.Red.toBGR img two_circles (some [])).2
      = some [⟨3, 4⟩, ⟨1, 2⟩] := by
    rw [fold_circles_some _ _ _ _ (by decide)]
    decide
  refine ⟨hfold, rfl, by decide, ?_⟩
  simp only [draw_circles, hfold]
  rw [trail_loop]
  rfl

/-! ## The pair walk apart from the lifetime of the captures -/

theorem thickness_in_line_range :
    ∀ i ∈ List.range 25,
      (thickness i).any (fun t => decide (0 < t ∧ t ≤ MAX_THICKNESS)) = true := by
  decide

theorem thickness_accepted (i : Nat) (hi : i < 25) :
    ∃ t, thickness i = some t ∧ 0 < t ∧ t ≤ MAX_THICKNESS := by
  have h := thickness_in_line_range i (List.mem_range.mpr hi)
  cases ht : thickness i with
  | none => simp [ht] at h
  | some t =>
    simp only [ht, Option.any_some, decide_eq_true_eq] at h
    exact ⟨t, rfl, h⟩

/-- From pair index 25 on the computed thickness is 0, which `cv::line`
refuses. -/
theorem thickness_zero_at_pair_25 (img : Mat) (p q : Point) (c : Vec3f) :
    thickness 25 = some 0 ∧ cv_line img p q c 0 = Except.error Fault.assertion_failed := by
  refine ⟨by decide, ?_⟩
  simp [cv_line]

theorem live_walk_step (red : Vec3f) (hist : List Point) (hn : hist.length ≤ 26)
    (j fuel : Nat) (img : Mat) (hj : j + 1 < hist.length) :
    ∃ p q t, hist[j]? = some p ∧ hist[j + 1]? = some q ∧ thickness j = some t ∧
      trail_loop red (utils.slide_view hist 2).with_live_captures (fuel + 1) ⟨j, j⟩ j img
        = trail_loop red (utils.slide_view hist 2).with_live_captures fuel ⟨j + 1, j + 1⟩
            (j + 1) { img with drawn := img.drawn ++ [DrawCmd.line p q red t] } := by
  obtain ⟨t, ht, ht0, ht1⟩ := thickness_accepted j (by omega)
  have hp : hist[j]? = some (hist[j]) := List.getElem?_eq_getElem (by omega)
  have hq : hist[j + 1]? = some (hist[j + 1]) := List.getElem?_eq_getElem (by omega)
  refine ⟨hist[j], hist[j + 1], t, hp, hq, ht, ?_⟩
  have hb : (utils.slide_view hist 2).with_live_captures.bound = hist.length - 1 :=
    slide_view_bound_of_pos hist (by omega) (by omega)
  have hend : utils.SlideView.atEnd (utils.slide_view hist 2).with_live_captures ⟨j, j⟩
      = false := by
    simp only [utils.SlideView.atEnd, hb]
    simp
    omega
  have hsz : (utils.slide_view hist 2).with_live_captures.sz = 2 := by
    simp [utils.slide_view, utils.SlideView.with_live_captures, SIZE_MOD]
  have hbase : (utils.slide_view hist 2).with_live_captures.base = hist := rfl
  have hal : (utils.slide_view hist 2).with_live_captures.captures_alive = true := rfl
  have hder : utils.SlideView.deref (utils.slide_view hist 2).with_live_captures ⟨j, j⟩
      = (Except.ok ((hist.drop j).take 2), ⟨j, j + 1⟩) := by
    simp only [utils.SlideView.deref, hsz, hbase, hal, UINT_MOD]
    rw [if_pos (by omega), Nat.mod_eq_of_lt (by omega)]
    simp
  have h0 : ((hist.drop j).take 2)[0]? = some (hist[j]) := by
    simp [List.getElem?_take, List.getElem?_drop, hp]
  have h1 : ((hist.drop j).take 2)[1]? = some (hist[j + 1]) := by
    simp [List.getElem?_take, List.getElem?_drop, hq]
  have hline : cv_line img hist[j] hist[j + 1] red t
      = Except.ok { img with drawn := img.drawn ++ [DrawCmd.line hist[j] hist[j + 1] red t] } := by
    simp [cv_line, ht0, ht1]
  rw [trail_loop]
  simp only [hend, hder, ht, h0, h1, hline, utils.SlideView.next, UINT_MOD, SIZE_MOD]
  rw [Nat.mod_eq_of_lt (by omega : j + 1 < 2 ^ 32), Nat.mod_eq_of_lt (by omega : j + 1 < 2 ^ 64)]
  simp

theorem live_walk_run (red : Vec3f) (hist : List Point) (hn : hist.length ≤ 26) :
    ∀ (r j fuel : Nat) (img : Mat), j + r + 1 = hist.length → r < fuel →
      ∃ segs : List DrawCmd,
        trail_loop red (utils.slide_view hist 2).with_live_captures fuel ⟨j, j⟩ j img
          = Except.ok { img with drawn := img.drawn ++ segs } ∧
        segs.length = r ∧
        ∀ k, k < r → ∃ p q t, hist[j + k]? = some p ∧ hist[j + k + 1]? = some q ∧
          thickness (j + k) = some t ∧ segs[k]? = some (DrawCmd.line p q red t) := by
  intro r
  induction r with
  | zero =>
    intro j fuel img hj hf
    refine ⟨[], ?_, rfl, fun k hk => absurd hk (Nat.not_lt_zero k)⟩
    obtain ⟨f, rfl⟩ : ∃ f, fuel = f + 1 := ⟨fuel - 1, by omega⟩
    have hb : (utils.slide_view hist 2).with_live_captures.bound = hist.length - 1 :=
      slide_view_bound_of_pos hist (by omega) (by omega)
    rw [trail_loop]
    simp [utils.SlideView.atEnd, hb]
    omega
  | succ r ih =>
    intro j fuel img hj hf
    obtain ⟨f, rfl⟩ : ∃ f, fuel = f + 1 := ⟨fuel - 1, by omega⟩
    obtain ⟨p, q, t, hp, hq, ht, hstep⟩ := live_walk_step red hist hn j f img (by omega)
    obtain ⟨segs, hrun, hlen, hsegs⟩ :=
      ih (j + 1) f { img with drawn := img.drawn ++ [DrawCmd.line p q red t] }
        (by omega) (by omega)
    refine ⟨DrawCmd.line p q red t :: segs, ?_, by simp [hlen], ?_⟩
    · rw [hstep, hrun]
      simp
    · intro k hk
      cases k with
      | zero => exact ⟨p, q, t, hp, hq, ht, by simp⟩
      | succ k =>
        obtain ⟨p2, q2, t2, h1, h2, h3, h4⟩ := hsegs k (by omega)
        refine ⟨p2, q2, t2, ?_, ?_, ?_, ?_⟩
        · rw [← h1]; congr 1; omega
        · rw [← h2]; congr 1; omega
        · rw [← h3]; congr 1; omega
        · simpa using h4

/-- Were the captures of the lambda alive, the walk over a history of `n`
points, `2 <= n <= 26`, would draw the `n - 1` consecutive pairs in order, pair
`i` joining `history[i]` and `history[i+1]`. -/
theorem live_walk_draws_consecutive_pairs (red : Vec3f) (hist : List Point) (img : Mat)
    (fuel : Nat) (h2 : 2 ≤ hist.length) (hn : hist.length ≤ 26) (hfuel : hist.length ≤ fuel) :
    ∃ segs : List DrawCmd,
      trail_loop red (utils.slide_view hist 2).with_live_captures fuel utils.SlideView.start 0 img
        = Except.ok { img with drawn := img.drawn ++ segs } ∧
      segs.length = hist.length - 1 ∧
      ∀ i, i < hist.length - 1 → ∃ p q t, hist[i]? = some p ∧ hist[i + 1]? = some q ∧
        thickness i = some t ∧ segs[i]? = some (DrawCmd.line p q red t) := by
  obtain ⟨segs, hrun, hlen, hsegs⟩ :=
    live_walk_run red hist hn (hist.length - 1) 0 fuel img (by omega) (by omega)
  refine ⟨segs, hrun, hlen, ?_⟩
  intro i hi
  obtain ⟨p, q, t, h1, h2, h3, h4⟩ := hsegs i hi
  simp only [Nat.zero_add] at h1 h2 h3
  exact ⟨p, q, t, h1, h2, h3, h4⟩

/-! ## Trail thickness -/

theorem thickness_values :
    (List.range 9).map thickness
      = [some 5, some 3, some 2, some 2, some 2, some 2, some 1, some 1, some 1] := by
  decide

theorem floor_sqrt_scaled (x : ℝ) (k : ℤ) (hk : 0 ≤ k) (h1 : ((k : ℝ) / 2.5) ^ 2 ≤ x)
    (h2 : x < (((k : ℝ) + 1) / 2.5) ^ 2) : ⌊Real.sqrt x * 2.5⌋ = k := by
  have hk' : (0 : ℝ) ≤ (k : ℝ) := by exact_mod_cast hk
  have hx : 0 ≤ x := le_trans (sq_nonneg _) h1
  rw [Int.floor_eq_iff]
  constructor
  · have h := (Real.le_sqrt (by positivity) hx).mpr h1
    have : (k : ℝ) = (k : ℝ) / 2.5 * 2.5 := by ring
    rw [this]
    exact mul_le_mul_of_nonneg_right h (by norm_num)
  · have h := (Real.sqrt_lt' (by positivity : (0 : ℝ) < ((k : ℝ) + 1) / 2.5)).mpr h2
    have : (k : ℝ) + 1 = ((k : ℝ) + 1) / 2.5 * 2.5 := by ring
    rw [this]
    exact mul_lt_mul_of_pos_right h (by norm_num)

/-- C5, the claim as stated fails at pair index 1: the code converts
`sqrt(4/2) * 2.5 = 3.53..` to `int` by truncation and uses thickness 3, while
the nearest integer is 4. -/
theorem thickness_one_is_not_rounded :
    thickness 1 = some 3 ∧
    round (Real.sqrt ((MAX_TAIL_THICKNESS : ℝ) / ((1 : ℕ) + 1)) * 2.5) = 4 := by
  refine ⟨by decide, ?_⟩
  rw [round_eq, Int.floor_eq_iff]
  have hs1 : (1.4 : ℝ) ≤ Real.sqrt 2 := (Real.le_sqrt (by norm_num) (by norm_num)).mpr (by norm_num)
  have hs2 : Real.sqrt 2 < (1.5 : ℝ) := (Real.sqrt_lt' (by norm_num)).mpr (by norm_num)
  have h4 : ((MAX_TAIL_THICKNESS : ℝ) / ((1 : ℕ) + 1)) = 2 := by
    simp [MAX_TAIL_THICKNESS]; norm_num
  rw [h4]
  constructor
  · push_cast; linarith
  · push_cast; linarith

/-- C5 (amended). For every pair index `i` with `0 <= i <= 8` the thickness
used for the `i`-th trail segment is `sqrt(MAX_TAIL_THICKNESS / (i + 1)) * 2.5`
with `MAX_TAIL_THICKNESS = 4`, converted to `int` by truncation: the largest
integer not above it (5, 3, 2, 2, 2, 2, 1, 1, 1). -/
theorem thickness_is_truncated (i : Nat) (hi : i ≤ 8) :
    thickness i = some ⌊Real.sqrt ((MAX_TAIL_THICKNESS : ℝ) / ((i : ℝ) + 1)) * 2.5⌋ := by
  have hv := thickness_values
  simp only [List.range, List.range.loop, List.map, List.cons.injEq, and_true] at hv
  obtain ⟨h0, h1, h2, h3, h4, h5, h6, h7, h8⟩ := hv
  have hM : (MAX_TAIL_THICKNESS : ℝ) = 4 := by simp [MAX_TAIL_THICKNESS]
  rw [hM]
  interval_cases i
  · rw [h0, floor_sqrt_scaled _ 5 (by norm_num) (by norm_num) (by norm_num)]
  · rw [h1, floor_sqrt_scaled _ 3 (by norm_num) (by norm_num) (by norm_num)]
  · rw [h2, floor_sqrt_scaled _ 2 (by norm_num) (by norm_num) (by norm_num)]
  · rw [h3, floor_sqrt_scaled _ 2 (by norm_num) (by norm_num) (by norm_num)]
  · rw [h4, floor_sqrt_scaled _ 2 (by norm_num) (by norm_num) (by norm_num)]
  · rw [h5, floor_sqrt_scaled _ 2 (by norm_num) (by norm_num) (by norm_num)]
  · rw [h6, floor_sqrt_scaled _ 1 (by norm_num) (by norm_num) (by norm_num)]
  · rw [h7, floor_sqrt_scaled _ 1 (by norm_num) (by norm_num) (by norm_num)]
  · rw [h8, floor_sqrt_scaled _ 1 (by norm_num) (by norm_num) (by norm_num)]

/-- Instance of the amended C5 statement at pair index 1. -/
theorem thickness_is_truncated_witness :
    (1 : Nat) ≤ 8 ∧
    thickness 1 = some ⌊Real.sqrt ((MAX_TAIL_THICKNESS : ℝ) / (((1 : Nat) : ℝ) + 1)) * 2.5⌋ :=
  ⟨by decide, thickness_is_truncated 1 (by decide)⟩

/-! ## The frame loop of `main` -/

theorem main_loop_map_some (ts : List Int) :
    ∀ s : Timing, main_loop s (ts.map some) = ts.foldl on_frame s := by
  induction ts with
  | nil => intro s; rfl
  | cons t ts ih => intro s; simp only [List.map, main_loop, List.foldl_cons]; exact ih _

theorem run_frames_snoc (t0 : Int) (ts : List Int) (t : Int) :
    run_frames t0 (ts ++ [t]) = on_frame (run_frames t0 ts) t := by
  simp only [run_frames, main_loop_map_some, List.foldl_append, List.foldl_cons, List.foldl_nil]

theorem main_loop_break (ts : List Int) (rest : List (Option Int)) :
    ∀ s : Timing, main_loop s (ts.map some ++ none :: rest) = main_loop s (ts.map some) := by
  induction ts with
  | nil => intro s; rfl
  | cons t ts ih => intro s; simp only [List.map, List.cons_append, main_loop]; exact ih _

theorem window_report_snoc (t0 : Int) (ts : List Int) (t : Int) (j : Nat)
    (hj : 100 * j + 99 < ts.length) :
    window_report t0 (ts ++ [t]) j = window_report t0 ts j := by
  simp only [window_report, window_last, window_start]
  rw [List.getD_append _ _ _ _ hj]
  by_cases h0 : j = 0
  · simp [h0]
  · simp only [h0, if_false]
    rw [List.getD_append _ _ _ _ (by omega)]

theorem run_frames_invariant (t0 : Int) (ts : List Int) :
    (run_frames t0 ts).frame_count = ts.length % 100 ∧
    (run_frames t0 ts).total_frame_count = ts.length % SIZE_MOD ∧
    (run_frames t0 ts).start_time = window_start t0 ts (ts.length / 100) ∧
    (run_frames t0 ts).reports = (List.range (ts.length / 100)).map (window_report t0 ts) := by
  induction ts using List.reverseRecOn with
  | nil => simp [run_frames, main_loop, Timing.init, window_start]
  | append_singleton ts t ih =>
    obtain ⟨hc, htot, hst, hrep⟩ := ih
    rw [run_frames_snoc]
    have hlen : (ts ++ [t]).length = ts.length + 1 := by simp
    have hfc : ((run_frames t0 ts).frame_count + 1) % SIZE_MOD = ts.length % 100 + 1 := by
      rw [hc]
      apply Nat.mod_eq_of_lt
      simp only [SIZE_MOD]
      omega
    have htc : ((run_frames t0 ts).total_frame_count + 1) % SIZE_MOD
        = (ts.length + 1) % SIZE_MOD := by
      rw [htot]
      simp [Nat.add_mod]
    by_cases hrep100 : (ts.length % 100 + 1) % 100 = 0
    · -- the frame closes a window
      have hq : (ts.length + 1) / 100 = ts.length / 100 + 1 := by omega
      have hidx : 100 * (ts.length / 100) + 99 = ts.length := by omega
      have hon : on_frame (run_frames t0 ts) t
          = { average_frametime := duration_div (t - (run_frames t0 ts).start_time)
                (ts.length % 100 + 1)
              frame_count := 0
              total_frame_count := (ts.length + 1) % SIZE_MOD
              start_time := t
              reports := (run_frames t0 ts).reports
                ++ [(duration_div (t - (run_frames t0 ts).start_time) (ts.length % 100 + 1),
                     (ts.length + 1) % SIZE_MOD)] } := by
        simp only [on_frame, hfc, htc, average_interval, hrep100, if_true]
      rw [hon, hlen, hq]
      refine ⟨by simp only; omega, rfl, ?_, ?_⟩
      · simp only [window_start]
        rw [if_neg (by omega)]
        have : 100 * (ts.length / 100 + 1) - 1 = ts.length := by omega
        rw [this, List.getD_append_right _ _ _ _ (le_refl _)]
        simp
      · simp only
        rw [List.range_succ, List.map_append, hrep]
        congr 1
        · apply List.map_congr_left
          intro j hj
          rw [List.mem_range] at hj
          exact (window_report_snoc t0 ts t j (by omega)).symm
        · simp only [List.map, window_report, window_last]
          rw [hidx, List.getD_append_right _ _ _ _ (le_refl _)]
          have h100 : ts.length % 100 + 1 = 100 := by omega
          have hws : window_start t0 (ts ++ [t]) (ts.length / 100)
              = (run_frames t0 ts).start_time := by
            rw [hst]
            simp only [window_start]
            by_cases h0 : ts.length / 100 = 0
            · simp [h0]
            · simp only [h0, if_false]
              rw [List.getD_append _ _ _ _ (by omega)]
          have h5 : 100 * (ts.length / 100 + 1) = ts.length + 1 := by omega
          rw [hws, h100, h5]
          simp
    · -- the frame is inside a window
      have hq : (ts.length + 1) / 100 = ts.length / 100 := by omega
      have hon : on_frame (run_frames t0 ts) t
          = { run_frames t0 ts with
              frame_count := ts.length % 100 + 1
              total_frame_count := (ts.length + 1) % SIZE_MOD } := by
        simp only [on_frame, hfc, htc, average_interval, hrep100, if_false]
      rw [hon, hlen, hq]
      refine ⟨by simp only; omega, rfl, ?_, ?_⟩
      · simp only [hst, window_start]
        by_cases h0 : ts.length / 100 = 0
        · simp [h0]
        · simp only [h0, if_false]
          rw [List.getD_append _ _ _ _ (by omega)]
      · simp only [hrep]
        apply List.map_congr_left
        intro j hj
        rw [List.mem_range] at hj
        exact (window_report_snoc t0 ts t j (by omega)).symm

theorem on_frame_reports (s : Timing) (t : Int) (hc : s.frame_count < 100) :
    (on_frame s t).reports = s.reports ++
      (if (s.frame_count + 1) % 100 = 0
        then [(duration_div (t - s.start_time) 100, (s.total_frame_count + 1) % SIZE_MOD)]
        else []) := by
  have hfc : (s.frame_count + 1) % SIZE_MOD = s.frame_count + 1 := by
    apply Nat.mod_eq_of_lt
    simp only [SIZE_MOD]
    omega
  simp only [on_frame, hfc, average_interval]
  split
  · rename_i h
    have : s.frame_count + 1 = 100 := by omega
    simp [this]
  · simp

/-- C6. For every stream of non-empty frames with clock readings `ts`: after
the frames the window counter is `len ts mod 100` and below 100, the number of
reports made is `len ts / 100` (none for fewer than 100 frames), one more frame
adds exactly one report if it is frame number `k = len ts + 1` with `k` a
multiple of 100 and adds none otherwise, and an empty frame ends the loop
without any further report. -/
theorem report_exactly_every_hundredth_frame (t0 : Int) (ts : List Int) :
    (run_frames t0 ts).frame_count = ts.length % 100 ∧
    (run_frames t0 ts).frame_count < 100 ∧
    (run_frames t0 ts).reports.length = ts.length / 100 ∧
    (∀ t : Int, (run_frames t0 (ts ++ [t])).reports = (run_frames t0 ts).reports ++
      (if (ts.length + 1) % 100 = 0
        then [(duration_div (t - (run_frames t0 ts).start_time) 100,
               (ts.length + 1) % SIZE_MOD)]
        else [])) ∧
    (∀ rest : List (Option Int),
      main_loop (Timing.init t0) (ts.map some ++ none :: rest) = run_frames t0 ts) := by
  obtain ⟨hc, htot, _, hrep⟩ := run_frames_invariant t0 ts
  have hlt : (run_frames t0 ts).frame_count < 100 := by rw [hc]; exact Nat.mod_lt _ (by norm_num)
  refine ⟨hc, hlt, by simp [hrep], ?_, fun rest => main_loop_break ts rest _⟩
  intro t
  rw [run_frames_snoc, on_frame_reports _ _ hlt, hc, htot]
  have h1 : (ts.length % 100 + 1) % 100 = (ts.length + 1) % 100 := by omega
  have h2 : (ts.length % SIZE_MOD + 1) % SIZE_MOD = (ts.length + 1) % SIZE_MOD := by
    simp [Nat.add_mod]
  rw [h1, h2]

theorem duration_div_of_nonneg (d : Int) (n : Nat) (h0 : 0 ≤ d) (h1 : d < 2 ^ 63) :
    duration_div d n = d / (n : Int) := by
  obtain ⟨k, rfl⟩ := Int.eq_ofNat_of_zero_le h0
  have hk : k < 2 ^ 63 := by exact_mod_cast h1
  have hmod : ((k : Int) % ((SIZE_MOD : Nat) : Int)).toNat = k := by
    simp only [SIZE_MOD]
    omega
  simp only [duration_div, hmod]
  have hq : k / n < 2 ^ 63 := lt_of_le_of_lt (Nat.div_le_self k n) hk
  rw [if_pos hq]
  simp

/-- C7, the claim as stated fails. With the clock read as 0 before the loop
and 100 frames arriving at 1000, 2000, .., 100000, the one report made is
1000 ticks, which is (100000 - 0) / 100; the timestamp of the 100th frame minus
the timestamp of the 1st frame, divided by 100, is 990. -/
theorem report_differs_from_first_to_last_frame :
    (run_frames 0 (steady_clock 100)).reports.map Prod.fst = [1000] ∧
    (window_last (steady_clock 100) 0 - window_first (steady_clock 100) 0) / 100 = 990 := by
  decide

/-- C7 (amended). Report number `j` (from 0) is made on the 100th frame of
window `j` and, for a clock that has not run backwards over the window, equals
(timestamp of the 100th frame of the window - start time of the window) / 100
in whole clock ticks, where the start time of the window is the clock reading
taken before the loop for the first window and the timestamp of the frame that
ended the previous window otherwise. -/
theorem report_is_window_elapsed_over_hundred (t0 : Int) (ts : List Int) (j : Nat)
    (hj : j < ts.length / 100)
    (h0 : 0 ≤ window_last ts j - window_start t0 ts j)
    (h1 : window_last ts j - window_start t0 ts j < 2 ^ 63) :
    ((run_frames t0 ts).reports.map Prod.fst)[j]?
      = some ((window_last ts j - window_start t0 ts j) / 100) := by
  obtain ⟨_, _, _, hrep⟩ := run_frames_invariant t0 ts
  rw [hrep]
  simp only [List.map_map, List.getElem?_map, List.getElem?_range hj, Option.map_some',
    Function.comp, window_report]
  rw [duration_div_of_nonneg _ _ h0 h1]
  rfl

/-- Instance of the amended C7 statement: second window of 200
frames arriving every 1000 ticks. -/
theorem report_is_window_elapsed_over_hundred_witness :
    (1 < (steady_clock 200).length / 100 ∧
      0 ≤ window_last (steady_clock 200) 1 - window_start 0 (steady_clock 200) 1 ∧
      window_last (steady_clock 200) 1 - window_start 0 (steady_clock 200) 1 < 2 ^ 63) ∧
    ((run_frames 0 (steady_clock 200)).reports.map Prod.fst)[1]?
      = some ((window_last (steady_clock 200) 1 - window_start 0 (steady_clock 200) 1) / 100) :=
  ⟨⟨by decide, by decide, by decide⟩,
   report_is_window_elapsed_over_hundred 0 (steady_clock 200) 1 (by decide) (by decide)
     (by decide)⟩

/-! ## Device selection -/

theorem digitChar_facts (d : Nat) (hd : d < 10) :
    (Nat.digitChar d).isDigit = true ∧ (Nat.digitChar d).toNat - 48 = d ∧
      Nat.digitChar d ≠ '-' := by
  interval_cases d <;> decide

theorem digits_value_fold (ds : List Nat) (hds : ∀ d ∈ ds, d < 10) :
    ∀ a : Nat, (ds.map Nat.digitChar).foldl (fun acc c => 10 * acc + (c.toNat - 48)) a
      = a * 10 ^ ds.length + Nat.ofDigits 10 ds.reverse := by
  induction ds with
  | nil => intro a; simp
  | cons d ds ih =>
    intro a
    have hd := (digitChar_facts d (hds d (List.mem_cons_self _ _))).2.1
    simp only [List.map, List.foldl_cons, List.reverse_cons, List.length_cons]
    rw [ih (fun x hx => hds x (List.mem_cons_of_mem _ hx)), hd, Nat.ofDigits_append]
    simp only [List.length_reverse, Nat.ofDigits_singleton]
    ring

theorem digits_value_map (ds : List Nat) (hds : ∀ d ∈ ds, d < 10) :
    digits_value (ds.map Nat.digitChar) = Nat.ofDigits 10 ds.reverse := by
  unfold digits_value
  rw [digits_value_fold ds hds 0]
  simp

theorem takeWhile_digits (ds : List Nat) (hds : ∀ d ∈ ds, d < 10) :
    (ds.map Nat.digitChar).takeWhile Char.isDigit = ds.map Nat.digitChar := by
  rw [List.takeWhile_eq_self_iff]
  intro c hc
  rw [List.mem_map] at hc
  obtain ⟨d, hd, rfl⟩ := hc
  exact (digitChar_facts d (hds d hd)).1

theorem from_chars_integer_string (neg : Bool) (ds : List Nat) (hne : ds ≠ [])
    (hds : ∀ d ∈ ds, d < 10) (idx0 : Int) :
    from_chars (integer_string neg ds).toList idx0
      = if -(2 ^ 31) ≤ integer_value neg ds ∧ integer_value neg ds ≤ 2 ^ 31 - 1
        then (⟨(if neg then 1 else 0) + ds.length, errc.success⟩, integer_value neg ds)
        else (⟨(if neg then 1 else 0) + ds.length, errc.result_out_of_range⟩, idx0) := by
  obtain ⟨d, rest, rfl⟩ : ∃ d rest, ds = d :: rest := by
    cases ds with
    | nil => exact absurd rfl hne
    | cons d rest => exact ⟨d, rest, rfl⟩
  have htw := takeWhile_digits (d :: rest) hds
  have hval := digits_value_map (d :: rest) hds
  have hd := digitChar_facts d (hds d (List.mem_cons_self _ _))
  have hnil : (List.map Nat.digitChar (d :: rest)).isEmpty = false := rfl
  have hlen : (List.map Nat.digitChar (d :: rest)).length = (d :: rest).length :=
    List.length_map _ _
  cases neg with
  | true =>
    have hstr : (integer_string true (d :: rest)).toList
        = '-' :: List.map Nat.digitChar (d :: rest) := rfl
    have hhead : decide (('-' :: List.map Nat.digitChar (d :: rest)).head? = some '-')
        = true := by simp
    rw [hstr]
    simp only [from_chars, hhead, if_true, List.tail_cons, htw, hnil, hval, hlen,
      integer_value, Bool.false_eq_true, if_false]
  | false =>
    have hstr : (integer_string false (d :: rest)).toList
        = List.map Nat.digitChar (d :: rest) := rfl
    have hhead : decide ((List.map Nat.digitChar (d :: rest)).head? = some '-') = false := by
      simp [hd.2.2]
    rw [hstr]
    simp only [from_chars, hhead, htw, hnil, hval, hlen, integer_value, Bool.false_eq_true,
      if_false]

theorem from_chars_no_integer (s : List Char) (hs : starts_with_integer s = false)
    (idx0 : Int) : from_chars s idx0 = (⟨0, errc.invalid_argument⟩, idx0) := by
  cases s with
  | nil => simp [from_chars]
  | cons c rest =>
    simp only [starts_with_integer] at hs
    by_cases hc : c = '-'
    · subst hc
      simp only [if_true] at hs
      cases rest with
      | nil => simp [from_chars]
      | cons d rest2 =>
        simp only at hs
        simp [from_chars, List.takeWhile, hs]
    · simp only [hc, if_false] at hs
      simp [from_chars, List.takeWhile, hs, hc]

/-- C9, the claim as stated fails. In index mode the device strings `12abc`
and `-5` are not wholly non-negative decimal integers, yet no parse error is
reported and `main` does not return: a capture source is opened by index, with
12 and with -5. -/
theorem trailing_text_and_negative_index_accepted :
    select_device false "12abc" 0
      = { log := [LogLine.info_use_index 12], cap := VideoCapture.byIndex 12,
          returned := none } ∧
    select_device false "-5" 0
      = { log := [LogLine.info_use_index (-5)], cap := VideoCapture.byIndex (-5),
          returned := none } := by
  decide

/-- C9 (amended). In index mode: (1) for every device string that does not
begin with a decimal integer, that is an optional minus sign followed by a
digit (for example `abc`), `main` reports a parse error and returns 1 with no
capture source opened; (2) when the whole device string is a decimal integer,
an optional minus sign followed by digits, whose value fits in `int`, a capture
source is opened by index with exactly that integer; (3) when the whole string
is such an integer outside the range of `int`, the outcome is the parse error
of (1). -/
theorem select_device_index_mode (idx0 : Int) :
    (∀ device : String, starts_with_integer device.toList = false →
      select_device false device idx0
        = { log := [LogLine.error_cannot_parse device], cap := VideoCapture.unopened,
            returned := some 1 }) ∧
    (∀ (neg : Bool) (ds : List Nat), ds ≠ [] → (∀ d ∈ ds, d < 10) →
      -(2 ^ 31) ≤ integer_value neg ds → integer_value neg ds ≤ 2 ^ 31 - 1 →
      select_device false (integer_string neg ds) idx0
        = { log := [LogLine.info_use_index (integer_value neg ds)],
            cap := VideoCapture.byIndex (integer_value neg ds), returned := none }) ∧
    (∀ (neg : Bool) (ds : List Nat), ds ≠ [] → (∀ d ∈ ds, d < 10) →
      ¬ (-(2 ^ 31) ≤ integer_value neg ds ∧ integer_value neg ds ≤ 2 ^ 31 - 1) →
      select_device false (integer_string neg ds) idx0
        = { log := [LogLine.error_cannot_parse (integer_string neg ds)],
            cap := VideoCapture.unopened, returned := some 1 }) := by
  refine ⟨?_, ?_, ?_⟩
  · intro device hs
    simp only [select_device]
    rw [from_chars_no_integer _ hs]
    simp
  · intro neg ds hne hds hlo hhi
    simp only [select_device]
    rw [from_chars_integer_string neg ds hne hds]
    have h : -2147483648 ≤ integer_value neg ds ∧ integer_value neg ds ≤ 2147483647 := by
      constructor <;> omega
    simp [h]
  · intro neg ds hne hds hout
    simp only [select_device]
    rw [from_chars_integer_string neg ds hne hds]
    have h : ¬ (-2147483648 ≤ integer_value neg ds ∧ integer_value neg ds ≤ 2147483647) := by
      intro h
      apply hout
      constructor <;> omega
    simp [h]

/-- Instance of the amended C9 statement: the strings `abc`, `-12` and
`4294967296`. -/
theorem select_device_index_mode_witness :
    select_device false "abc" 0
      = { log := [LogLine.error_cannot_parse "abc"], cap := VideoCapture.unopened,
          returned := some 1 } ∧
    select_device false (integer_string true [1, 2]) 0
      = { log := [LogLine.info_use_index (integer_value true [1, 2])],
          cap := VideoCapture.byIndex (integer_value true [1, 2]), returned := none } ∧
    select_device false (integer_string false [4, 2, 9, 4, 9, 6, 7, 2, 9, 6]) 0
      = { log := [LogLine.error_cannot_parse
            (integer_string false [4, 2, 9, 4, 9, 6, 7, 2, 9, 6])],
          cap := VideoCapture.unopened, returned := some 1 } :=
  ⟨(select_device_index_mode 0).1 "abc" (by decide),
   (select_device_index_mode 0).2.1 true [1, 2] (by decide) (by decide) (by decide) (by decide),
   (select_device_index_mode 0).2.2 false [4, 2, 9, 4, 9, 6, 7, 2, 9, 6] (by decide) (by decide)
     (by decide)⟩

/-! ## Arguments of the Hough detector -/

theorem detect_circles_min_dist (img : Mat) :
    (detect_circles_args img).minDist = Flt.ofInt (2 * img.cols) := by
  simp [detect_circles_args, Size.bindings, Mat.size, Int.mul_comm]

/-- C10, the code at the failing input. For a 640 x 480 image (width 640,
height 480) the detector is called with inverse ratio 2, thresholds 300 and 0.9
(as a `double`), radii 5 and 10, and its candidate list is returned unchanged,
but the minimum distance between centers is 1280, twice the width, and not
960, twice the height. -/
theorem detect_circles_uses_twice_the_width (HoughCircles : Mat → HoughArgs → List Vec3f) :
    sample_img.cols = 640 ∧ sample_img.rows = 480 ∧
    detect_circles HoughCircles sample_img
      = HoughCircles sample_img
          { method := HoughModes.HOUGH_GRADIENT
            dp := Flt.ofInt 2
            minDist := Flt.ofInt 1280
            param1 := Flt.ofInt 300
            param2 := Flt.roundNearestEven 53 9 10
            minRadius := 5
            maxRadius := 10 } ∧
    (detect_circles_args sample_img).minDist ≠ Flt.ofInt (2 * sample_img.rows) := by
  refine ⟨rfl, rfl, rfl, by decide⟩

end CvExample
